import Mathlib

/-!
Verification of liampulles/sudoku-solver.

Shallow embedding of the Go source. A `Cell` (Go `uint8`, documented
"From 0 to 9 (0 meaning unset)") is modelled as `Nat`; grids are total
functions from row and column indices to cell values; the Go fixed-size
arrays `[10]bool`, `[9][10]bool` are modelled as functions, with separate
"checked" variants that make the array-bound check explicit where a claim
is about out-of-bounds safety.
-/

namespace SudokuSolver

/-- A cell group: Go `type CellGroup [9]Cell` (a row, column, or box). -/
abbrev CellGroup := Fin 9 → Nat

/-- A grid: Go `type Grid [9]CellGroup`; 1st index is row, 2nd is column. -/
abbrev Grid := Fin 9 → Fin 9 → Nat

/-- All 81 cell positions in row-major order, mirroring the nested
`for row ... for col ...` loops of the Go source. -/
def allPos : List (Fin 9 × Fin 9) :=
  (List.finRange 9).flatMap (fun r => (List.finRange 9).map (fun c => (r, c)))

/-- Box index of a position: Go `boxRow, boxCol := row/3, col/3;
box := (boxCol * 3) + boxRow`. -/
def boxIndex (r c : Fin 9) : Fin 9 :=
  ⟨(c.1 / 3) * 3 + r.1 / 3, by omega⟩

/-- Position of a cell inside its box: Go `posRow, posCol := row-(boxRow*3),
col-(boxCol*3); pos := (posCol * 3) + posRow` (from `Grid.Boxes`). -/
def posIndex (r c : Fin 9) : Fin 9 :=
  ⟨(c.1 % 3) * 3 + r.1 % 3, by omega⟩

/-- The (row, col) of the cell at slot `i` of box `b`: inverse of
`boxIndex`/`posIndex`. -/
def boxCellPos (b i : Fin 9) : Fin 9 × Fin 9 :=
  (⟨(b.1 % 3) * 3 + i.1 % 3, by omega⟩, ⟨(b.1 / 3) * 3 + i.1 / 3, by omega⟩)

/-- A `[9][10]bool` seen-table from `Grid.Valid`, as a function. -/
abbrev Table := Fin 9 → Nat → Bool

/-- Setting one entry of a seen-table to `true`
(Go `numsSeenByRow[row][cell] = true`). -/
def mark (t : Table) (i : Fin 9) (v : Nat) : Table :=
  fun i' v' => if i' = i ∧ v' = v then true else t i' v'

/-- The scan loop of `Grid.Valid` (the single-pass seen-table
implementation): walk the remaining positions `ps`, skip empty cells,
fail on a row/column/box collision, otherwise mark all three tables. -/
def validSeenAux (g : Grid) : List (Fin 9 × Fin 9) → Table → Table → Table → Bool
  | [], _, _, _ => true
  | p :: rest, sr, sc, sb =>
    if g p.1 p.2 = 0 then validSeenAux g rest sr sc sb
    else if sr p.1 (g p.1 p.2) then false
    else if sc p.2 (g p.1 p.2) then false
    else if sb (boxIndex p.1 p.2) (g p.1 p.2) then false
    else validSeenAux g rest
      (mark sr p.1 (g p.1 p.2))
      (mark sc p.2 (g p.1 p.2))
      (mark sb (boxIndex p.1 p.2) (g p.1 p.2))

/-- `Grid.Valid` (single-pass seen-table implementation): row, column and
box constraints checked in one row-major scan. -/
def Grid.Valid (g : Grid) : Bool :=
  validSeenAux g allPos (fun _ _ => false) (fun _ _ => false) (fun _ _ => false)

/-- `Grid.RowAt`. -/
def Grid.RowAt (g : Grid) (row : Fin 9) : CellGroup := fun c => g row c

/-- `Grid.ColumnAt`. -/
def Grid.ColumnAt (g : Grid) (col : Fin 9) : CellGroup := fun r => g r col

/-- `Grid.BoxAt`. NOTE: the Go loop body is `box[i] = g[row][col]` — it
reads the cell at the *argument* position `(row, col)` on every iteration
(the loop variables `r`, `c` are never read), so every slot of the
returned group holds the same value. The fold below mirrors that loop:
the pair list enumerates the box's `(r, c)` coordinates and `st.2` is the
counter `i`, and the written value ignores the pair. -/
def Grid.BoxAt (g : Grid) (row col : Fin 9) : CellGroup :=
  let boxRow := row.1 / 3
  let boxCol := col.1 / 3
  let pairs := (List.range' (boxRow * 3) 3).flatMap
    (fun r => (List.range' (boxCol * 3) 3).map (fun c => (r, c)))
  (pairs.foldl
    (fun (st : CellGroup × Nat) _rc =>
      (fun j => if j.1 = st.2 then g row col else st.1 j, st.2 + 1))
    ((fun _ => 0), 0)).1

/-- `CellGroup.Count`: the number of non-empty cells in a group. -/
def CellGroup.Count (c : CellGroup) : Nat :=
  (List.finRange 9).countP (fun i => c i != 0)

/-- `Grid.NumCounts` viewed at one value: the Go function builds a
`[10]int` histogram by `counts[cell]++` over every cell; modelled as the
function sending a value to its count. -/
def Grid.NumCounts (g : Grid) : Nat → Nat :=
  allPos.foldl (fun counts p => fun v => if v = g p.1 p.2 then counts v + 1 else counts v)
    (fun _ => 0)

/-- Go `type Move struct { Row, Col int; Value Cell }`. -/
structure Move where
  row : Fin 9
  col : Fin 9
  value : Nat
deriving DecidableEq

/-- `Grid.Apply`: copy of the grid with the move's cell filled in. -/
def Grid.Apply (g : Grid) (m : Move) : Grid :=
  fun r c => if r = m.row ∧ c = m.col then m.value else g r c

/-- The digits tried by `Possibilities` and `Backtrack`:
Go `for i := Cell(1); i <= 9; i++`. -/
def digits : List Nat := [1, 2, 3, 4, 5, 6, 7, 8, 9]

/-- `Grid.Possibilities`. NOTE: the Go loop builds
`variant := g; variant[row][col] = i` but the condition it tests is
`g.Valid()` — the *receiver*, not `variant` — so a digit is recorded
for an empty cell iff the input grid is valid, regardless of the digit. -/
def Grid.Possibilities (g : Grid) : List Move :=
  allPos.flatMap (fun p =>
    if g p.1 p.2 ≠ 0 then []
    else digits.filterMap (fun i =>
      let variant := Grid.Apply g ⟨p.1, p.2, i⟩
      if Grid.Valid g = true then some ⟨p.1, p.2, i⟩ else none))

/-- `groupMoves`: bucket moves by their (row, col). -/
def groupMoves (moves : List Move) : Fin 9 → Fin 9 → List Move :=
  moves.foldl
    (fun grouped m => fun r c =>
      if r = m.row ∧ c = m.col then grouped r c ++ [m] else grouped r c)
    (fun _ _ => [])

/-- `Move.Rank`: 0 when some cell of the move-grid has exactly one
possibility; otherwise the sum of the row, column, box and value counts
measured on the applied grid. -/
def Move.Rank (m : Move) (grid : Grid) : Nat :=
  let applied := Grid.Apply grid m
  let moveGrid := groupMoves (Grid.Possibilities applied)
  if (List.finRange 9).any (fun r =>
      (List.finRange 9).any (fun c => (moveGrid r c).length == 1)) then 0
  else
    CellGroup.Count (Grid.RowAt applied m.row)
      + CellGroup.Count (Grid.ColumnAt applied m.col)
      + CellGroup.Count (Grid.BoxAt applied m.row m.col)
      + Grid.NumCounts applied m.value

/-- Insert one ranked move into a rank-sorted list (ascending). -/
def insertRanked (x : Move × Nat) : List (Move × Nat) → List (Move × Nat)
  | [] => [x]
  | y :: ys => if x.2 ≤ y.2 then x :: y :: ys else y :: insertRanked x ys

/-- Sort ranked moves by ascending rank. -/
def sortRanked : List (Move × Nat) → List (Move × Nat)
  | [] => []
  | x :: xs => insertRanked x (sortRanked xs)

/-- `Possibilities.Sort`: compute each move's rank against `grid` and sort
ascending by rank. (Go uses `slices.SortFunc` with comparator
`a.Rank - b.Rank`, an unspecified-order comparison sort; it is modelled
as a sort by rank, which agrees on the ordering of distinct ranks.) -/
def Possibilities.Sort (p : List Move) (grid : Grid) : List Move :=
  (sortRanked (p.map (fun m => (m, Move.Rank m grid)))).map Prod.fst

/-- The inner digit loop of `Backtrack`: try each digit in the first
empty cell; propagate a solved result, fall through on failure, and
return `(g, false)` when the digits run out. `recur` is the recursive
call (one fuel step smaller). -/
def backtrackDigits (recur : Grid → Option (Grid × Bool)) (g : Grid) (r c : Fin 9) :
    List Nat → Option (Grid × Bool)
  | [] => some (g, false)
  | i :: rest =>
    match recur (Grid.Apply g ⟨r, c, i⟩) with
    | none => none
    | some (filled, true) => some (filled, true)
    | some (_, false) => backtrackDigits recur g r c rest

/-- `Backtrack`, with explicit fuel (`none` = fuel exhausted; the source
recursion always terminates, which is proved below as the fuel bound).
Structure of the Go function: reject an invalid grid; find the first
empty cell in row-major order (the Go nested loops only ever act on the
first empty cell before returning); try digits 1–9 there; a grid with no
empty cell is returned as solved. -/
def backtrackAux : Nat → Grid → Option (Grid × Bool)
  | 0, _ => none
  | fuel + 1, g =>
    if Grid.Valid g = false then some (g, false)
    else
      match allPos.find? (fun p => g p.1 p.2 == 0) with
      | none => some (g, true)
      | some p => backtrackDigits (backtrackAux fuel) g p.1 p.2 digits

/-- `Backtrack` as a total function: 82 units of fuel always suffice
(at most one unit per empty cell plus the initial call). -/
def Backtrack (g : Grid) : Grid × Bool :=
  (backtrackAux 82 g).getD (g, false)

/-- `Hint`: collect the cells empty in `early` but filled in `later`;
`none` models the Go `panic` when there are none; otherwise sort by rank
against `early` and return the first move. -/
def Hint (early later : Grid) : Option Move :=
  let moves := allPos.filterMap (fun p =>
    if early p.1 p.2 = 0 ∧ later p.1 p.2 ≠ 0
    then some ⟨p.1, p.2, later p.1 p.2⟩ else none)
  if moves.isEmpty then none
  else (Possibilities.Sort moves early).head?

/-! ### The per-group `Grid.Valid` implementation (src/sudoku.go) -/

/-- The loop of `CellGroup.Valid` (src/sudoku.go): walk the cells with a
`[10]bool` seen array (modelled as a function), skipping empty cells and
failing on a repeat. -/
def cellGroupValidAux : List Nat → (Nat → Bool) → Bool
  | [], _ => true
  | cell :: rest, seen =>
    if cell = 0 then cellGroupValidAux rest seen
    else if seen cell then false
    else cellGroupValidAux rest (fun v => if v = cell then true else seen v)

/-- `CellGroup.Valid` (src/sudoku.go): no duplicates of cells 1 to 9. -/
def CellGroup.Valid (c : CellGroup) : Bool :=
  cellGroupValidAux ((List.finRange 9).map c) (fun _ => false)

/-- `Grid.Rows` (src/sudoku.go): returns the grid itself. -/
def Grid.Rows (g : Grid) : Fin 9 → CellGroup := fun r => g r

/-- `Grid.Columns` (src/sudoku.go): `columns[col][row] = cell`. -/
def Grid.Columns (g : Grid) : Fin 9 → CellGroup := fun c => fun r => g r c

/-- `Grid.Boxes` (src/sudoku.go): one row-major pass writing
`boxes[box][pos] = cell` with `box = (col/3)*3 + row/3` and
`pos = (col%3)*3 + row%3`, modelled as a fold of updates. -/
def Grid.Boxes (g : Grid) : Fin 9 → CellGroup :=
  allPos.foldl
    (fun boxes p => fun b => fun i =>
      if b = boxIndex p.1 p.2 ∧ i = posIndex p.1 p.2 then g p.1 p.2 else boxes b i)
    (fun _ _ => 0)

/-- The group-based `Grid.Valid` of src/sudoku.go: every row, then every
column, then every box must pass `CellGroup.Valid`. -/
def Grid.ValidGroups (g : Grid) : Bool :=
  ((List.finRange 9).all (fun i => CellGroup.Valid (Grid.Rows g i)))
    && ((List.finRange 9).all (fun i => CellGroup.Valid (Grid.Columns g i)))
    && ((List.finRange 9).all (fun i => CellGroup.Valid (Grid.Boxes g i)))

/-! ### Specification-side predicates -/

/-- A group has no repeated non-zero value. -/
def NoDupGroup (c : CellGroup) : Prop :=
  ∀ i j : Fin 9, i ≠ j → c i ≠ 0 → c i ≠ c j

/-- Two distinct positions conflict: both hold the same non-zero value
and share a row, a column, or a box. -/
def Conf (g : Grid) (p q : Fin 9 × Fin 9) : Prop :=
  p ≠ q ∧ g p.1 p.2 ≠ 0 ∧ g p.1 p.2 = g q.1 q.2 ∧
    (p.1 = q.1 ∨ p.2 = q.2 ∨ boxIndex p.1 p.2 = boxIndex q.1 q.2)

/-- Every cell holds a documented `Cell` value (0–9). -/
def Grid.WellFormed (g : Grid) : Prop := ∀ r c : Fin 9, g r c ≤ 9

/-- `s` completes `g`: `s` is a well-formed valid grid with no empty
cell that agrees with `g` on every cell that is filled in `g`. -/
def IsCompletion (g s : Grid) : Prop :=
  Grid.WellFormed s ∧ Grid.Valid s = true ∧
    (∀ p : Fin 9 × Fin 9, s p.1 p.2 ≠ 0) ∧
    (∀ p : Fin 9 × Fin 9, g p.1 p.2 ≠ 0 → s p.1 p.2 = g p.1 p.2)

/-- The number of empty cells of a grid. -/
def countEmpty (g : Grid) : Nat := allPos.countP (fun p => g p.1 p.2 == 0)

/-! ### Concrete grids (test fixtures of the repository) -/

/-- Build a grid from a row-major list of rows (missing entries are 0). -/
def gridOfRows (l : List (List Nat)) : Grid :=
  fun r c => (l[r.1]?.getD [])[c.1]?.getD 0

instance decWellFormed (g : Grid) : Decidable (Grid.WellFormed g) := by
  unfold Grid.WellFormed
  infer_instance

instance decIsCompletion (g s : Grid) : Decidable (IsCompletion g s) := by
  unfold IsCompletion
  infer_instance

/-- The all-empty grid. -/
def emptyGrid : Grid := fun _ _ => 0

/-- The `filled` grid of the repository's tests (a complete solution). -/
def filledGrid : Grid := gridOfRows
  [[5, 3, 4, 6, 7, 8, 9, 1, 2],
   [6, 7, 2, 1, 9, 5, 3, 4, 8],
   [1, 9, 8, 3, 4, 2, 5, 6, 7],
   [8, 5, 9, 7, 6, 1, 4, 2, 3],
   [4, 2, 6, 8, 5, 3, 7, 9, 1],
   [7, 1, 3, 9, 2, 4, 8, 5, 6],
   [9, 6, 1, 5, 3, 7, 2, 8, 4],
   [2, 8, 7, 4, 1, 9, 6, 3, 5],
   [3, 4, 5, 2, 8, 6, 1, 7, 9]]

/-! ### Checked validity: the `[10]bool` bound made explicit (for C10) -/

/-- A `[9][10]bool` seen-table with its true index type. -/
abbrev TableChecked := Fin 9 → Fin 10 → Bool

/-- `mark` for a checked table. -/
def markChecked (t : TableChecked) (i : Fin 9) (v : Fin 10) : TableChecked :=
  fun i' v' => if i' = i ∧ v' = v then true else t i' v'

/-- The loop of `CellGroup.Valid` with the `numSeen[cell]` array access
made explicit: `none` models the out-of-bounds panic when `cell ≥ 10`. -/
def cellGroupValidCheckedAux : List Nat → (Fin 10 → Bool) → Option Bool
  | [], _ => some true
  | cell :: rest, seen =>
    if cell = 0 then cellGroupValidCheckedAux rest seen
    else if h : cell < 10 then
      if seen ⟨cell, h⟩ then some false
      else cellGroupValidCheckedAux rest
        (fun v => if v = ⟨cell, h⟩ then true else seen v)
    else none

/-- `CellGroup.Valid` with explicit bound checks. -/
def CellGroup.ValidChecked (c : CellGroup) : Option Bool :=
  cellGroupValidCheckedAux ((List.finRange 9).map c) (fun _ => false)

/-- The scan of the seen-table `Grid.Valid` with the three
`[...][cell]` array accesses made explicit: `none` models the
out-of-bounds panic when a cell value is ≥ 10. -/
def validSeenCheckedAux (g : Grid) :
    List (Fin 9 × Fin 9) → TableChecked → TableChecked → TableChecked → Option Bool
  | [], _, _, _ => some true
  | p :: rest, sr, sc, sb =>
    if g p.1 p.2 = 0 then validSeenCheckedAux g rest sr sc sb
    else if h : g p.1 p.2 < 10 then
      if sr p.1 ⟨g p.1 p.2, h⟩ then some false
      else if sc p.2 ⟨g p.1 p.2, h⟩ then some false
      else if sb (boxIndex p.1 p.2) ⟨g p.1 p.2, h⟩ then some false
      else validSeenCheckedAux g rest
        (markChecked sr p.1 ⟨g p.1 p.2, h⟩)
        (markChecked sc p.2 ⟨g p.1 p.2, h⟩)
        (markChecked sb (boxIndex p.1 p.2) ⟨g p.1 p.2, h⟩)
    else none

/-- `Grid.Valid` with explicit bound checks. -/
def Grid.ValidChecked (g : Grid) : Option Bool :=
  validSeenCheckedAux g allPos (fun _ _ => false) (fun _ _ => false) (fun _ _ => false)

/-- A grid differing from the empty grid in exactly one cell. -/
def hintLater : Grid := fun r c => if r = 0 ∧ c = 0 then 5 else 0

/-! ### Exhibits of the three source slips -/

/-- A grid with a single 1 at (0, 0). -/
def possGrid : Grid := fun r c => if r = 0 ∧ c = 0 then 1 else 0

/-- A grid with a 1 at (0, 0) and a 2 at (0, 1): two distinct non-zero
values in the top-left box. -/
def boxGrid : Grid := fun r c =>
  if r = 0 ∧ c = 0 then 1 else if r = 0 ∧ c = 1 then 2 else 0

/-- A grid with a single 1 at (0, 8). -/
def rankGrid : Grid := fun r c => if r = 0 ∧ c = 8 then 1 else 0

/-! ### Basic facts about positions and conflicts -/

lemma allPos_nodup : allPos.Nodup := by decide

lemma mem_allPos : ∀ p : Fin 9 × Fin 9, p ∈ allPos := by decide

lemma Conf.symm {g : Grid} {p q : Fin 9 × Fin 9} (h : Conf g p q) : Conf g q p := by
  obtain ⟨hne, hp0, hval, hgrp⟩ := h
  refine ⟨hne.symm, ?_, hval.symm, ?_⟩
  · rw [← hval]; exact hp0
  · rcases hgrp with h | h | h
    · exact Or.inl h.symm
    · exact Or.inr (Or.inl h.symm)
    · exact Or.inr (Or.inr h.symm)

lemma not_conf_of_zero {g : Grid} {p : Fin 9 × Fin 9} (h : g p.1 p.2 = 0)
    (q : Fin 9 × Fin 9) : ¬ Conf g p q :=
  fun hc => hc.2.1 h

/-! ### Correctness of the single-pass seen-table scan -/

lemma validSeenAux_iff (g : Grid) (ps : List (Fin 9 × Fin 9)) :
    ∀ (done : List (Fin 9 × Fin 9)) (sr sc sb : Table),
      ps.Nodup → (∀ p ∈ ps, p ∉ done) →
      (∀ i v, v ≠ 0 → (sr i v = true ↔ ∃ q ∈ done, q.1 = i ∧ g q.1 q.2 = v)) →
      (∀ i v, v ≠ 0 → (sc i v = true ↔ ∃ q ∈ done, q.2 = i ∧ g q.1 q.2 = v)) →
      (∀ i v, v ≠ 0 →
        (sb i v = true ↔ ∃ q ∈ done, boxIndex q.1 q.2 = i ∧ g q.1 q.2 = v)) →
      (validSeenAux g ps sr sc sb = true ↔
        (ps.Pairwise (fun p q => ¬ Conf g p q) ∧
          ∀ p ∈ ps, ∀ q ∈ done, ¬ Conf g p q)) := by
  induction ps with
  | nil => intro done sr sc sb _ _ _ _ _; simp [validSeenAux]
  | cons p rest ih =>
    intro done sr sc sb hnd hdisj hr hc hb
    have hprest : p ∉ rest := (List.nodup_cons.mp hnd).1
    have hndr : rest.Nodup := (List.nodup_cons.mp hnd).2
    by_cases h0 : g p.1 p.2 = 0
    · rw [validSeenAux, if_pos h0,
        ih done sr sc sb hndr (fun q hq => hdisj q (List.mem_cons_of_mem _ hq)) hr hc hb]
      have hz := not_conf_of_zero (g := g) h0
      simp only [List.pairwise_cons, List.mem_cons]
      constructor
      · rintro ⟨hpw, hdone⟩
        refine ⟨⟨fun a _ => hz a, hpw⟩, ?_⟩
        rintro x (rfl | hx) q hq
        · exact hz q
        · exact hdone x hx q hq
      · rintro ⟨⟨_, hpw⟩, hdone⟩
        exact ⟨hpw, fun x hx q hq => hdone x (Or.inr hx) q hq⟩
    · rw [validSeenAux, if_neg h0]
      have hpdone : p ∉ done := hdisj p (List.mem_cons_self _ _)
      by_cases hsr : sr p.1 (g p.1 p.2) = true
      · rw [if_pos hsr]
        obtain ⟨q, hqdone, hq1, hqv⟩ := (hr p.1 _ h0).mp hsr
        have hconf : Conf g p q :=
          ⟨fun he => hpdone (he ▸ hqdone), h0, hqv.symm, Or.inl hq1.symm⟩
        simp only [Bool.false_eq_true, false_iff]
        rintro ⟨_, hdone⟩
        exact hdone p (List.mem_cons_self _ _) q hqdone hconf
      · by_cases hsc : sc p.2 (g p.1 p.2) = true
        · rw [if_neg hsr, if_pos hsc]
          obtain ⟨q, hqdone, hq2, hqv⟩ := (hc p.2 _ h0).mp hsc
          have hconf : Conf g p q :=
            ⟨fun he => hpdone (he ▸ hqdone), h0, hqv.symm, Or.inr (Or.inl hq2.symm)⟩
          simp only [Bool.false_eq_true, false_iff]
          rintro ⟨_, hdone⟩
          exact hdone p (List.mem_cons_self _ _) q hqdone hconf
        · by_cases hsb : sb (boxIndex p.1 p.2) (g p.1 p.2) = true
          · rw [if_neg hsr, if_neg hsc, if_pos hsb]
            obtain ⟨q, hqdone, hqb, hqv⟩ := (hb _ _ h0).mp hsb
            have hconf : Conf g p q :=
              ⟨fun he => hpdone (he ▸ hqdone), h0, hqv.symm, Or.inr (Or.inr hqb.symm)⟩
            simp only [Bool.false_eq_true, false_iff]
            rintro ⟨_, hdone⟩
            exact hdone p (List.mem_cons_self _ _) q hqdone hconf
          · rw [if_neg hsr, if_neg hsc, if_neg hsb]
            have hpd : ∀ q ∈ done, ¬ Conf g p q := by
              rintro q hq ⟨hne, _, hval, hgrp⟩
              rcases hgrp with h | h | h
              · exact hsr ((hr p.1 _ h0).mpr ⟨q, hq, h.symm, hval.symm⟩)
              · exact hsc ((hc p.2 _ h0).mpr ⟨q, hq, h.symm, hval.symm⟩)
              · exact hsb ((hb _ _ h0).mpr ⟨q, hq, h.symm, hval.symm⟩)
            have hr' : ∀ i v, v ≠ 0 →
                ((mark sr p.1 (g p.1 p.2)) i v = true ↔
                  ∃ q ∈ p :: done, q.1 = i ∧ g q.1 q.2 = v) := by
              intro i v hv
              simp only [mark, List.mem_cons]
              by_cases hm : i = p.1 ∧ v = g p.1 p.2
              · rw [if_pos hm]
                simp only [true_iff]
                exact ⟨p, Or.inl rfl, hm.1.symm, hm.2.symm⟩
              · rw [if_neg hm, hr i v hv]
                constructor
                · rintro ⟨q, hq, hq1, hqv⟩; exact ⟨q, Or.inr hq, hq1, hqv⟩
                · rintro ⟨q, (rfl | hq), hq1, hqv⟩
                  · exact absurd ⟨hq1.symm, hqv.symm⟩ hm
                  · exact ⟨q, hq, hq1, hqv⟩
            have hc' : ∀ i v, v ≠ 0 →
                ((mark sc p.2 (g p.1 p.2)) i v = true ↔
                  ∃ q ∈ p :: done, q.2 = i ∧ g q.1 q.2 = v) := by
              intro i v hv
              simp only [mark, List.mem_cons]
              by_cases hm : i = p.2 ∧ v = g p.1 p.2
              · rw [if_pos hm]
                simp only [true_iff]
                exact ⟨p, Or.inl rfl, hm.1.symm, hm.2.symm⟩
              · rw [if_neg hm, hc i v hv]
                constructor
                · rintro ⟨q, hq, hq1, hqv⟩; exact ⟨q, Or.inr hq, hq1, hqv⟩
                · rintro ⟨q, (rfl | hq), hq1, hqv⟩
                  · exact absurd ⟨hq1.symm, hqv.symm⟩ hm
                  · exact ⟨q, hq, hq1, hqv⟩
            have hb' : ∀ i v, v ≠ 0 →
                ((mark sb (boxIndex p.1 p.2) (g p.1 p.2)) i v = true ↔
                  ∃ q ∈ p :: done, boxIndex q.1 q.2 = i ∧ g q.1 q.2 = v) := by
              intro i v hv
              simp only [mark, List.mem_cons]
              by_cases hm : i = boxIndex p.1 p.2 ∧ v = g p.1 p.2
              · rw [if_pos hm]
                simp only [true_iff]
                exact ⟨p, Or.inl rfl, hm.1.symm, hm.2.symm⟩
              · rw [if_neg hm, hb i v hv]
                constructor
                · rintro ⟨q, hq, hq1, hqv⟩; exact ⟨q, Or.inr hq, hq1, hqv⟩
                · rintro ⟨q, (rfl | hq), hq1, hqv⟩
                  · exact absurd ⟨hq1.symm, hqv.symm⟩ hm
                  · exact ⟨q, hq, hq1, hqv⟩
            rw [ih (p :: done) _ _ _ hndr
              (by
                intro x hx
                simp only [List.mem_cons, not_or]
                exact ⟨fun he => hprest (he ▸ hx),
                  hdisj x (List.mem_cons_of_mem _ hx)⟩)
              hr' hc' hb']
            simp only [List.pairwise_cons, List.mem_cons]
            constructor
            · rintro ⟨hpw, hall⟩
              refine ⟨⟨?_, hpw⟩, ?_⟩
              · intro a ha hconf
                exact hall a ha p (Or.inl rfl) hconf.symm
              · rintro x (rfl | hx) q hq
                · exact hpd q hq
                · exact hall x hx q (Or.inr hq)
            · rintro ⟨⟨hhead, hpw⟩, hall⟩
              refine ⟨hpw, ?_⟩
              rintro x hx q (rfl | hq)
              · exact fun hconf => hhead x hx hconf.symm
              · exact hall x (Or.inr hx) q hq

lemma valid_iff_no_conf (g : Grid) :
    Grid.Valid g = true ↔ ∀ p q, ¬ Conf g p q := by
  rw [Grid.Valid, validSeenAux_iff g allPos [] _ _ _ allPos_nodup
    (by simp) (by simp) (by simp) (by simp)]
  simp only [List.not_mem_nil, false_implies, implies_true, and_true]
  constructor
  · intro hpw p q hconf
    rcases eq_or_ne p q with rfl | hne
    · exact hconf.1 rfl
    · have hsymm : Symmetric (fun p q => ¬ Conf g p q) := by
        intro a b hab hcf
        exact hab (Conf.symm hcf)
      exact hpw.forall hsymm (mem_allPos p) (mem_allPos q) hne hconf
  · intro hall
    exact allPos_nodup.imp (fun {a b} _ => hall a b)

/-! ### The box coordinate bijection and the derived box groups -/

lemma boxCellPos_boxIndex :
    ∀ b i : Fin 9, boxIndex (boxCellPos b i).1 (boxCellPos b i).2 = b := by decide

lemma boxCellPos_posIndex :
    ∀ b i : Fin 9, posIndex (boxCellPos b i).1 (boxCellPos b i).2 = i := by decide

lemma boxCellPos_eta :
    ∀ r c : Fin 9, boxCellPos (boxIndex r c) (posIndex r c) = (r, c) := by decide

/-- The fold of `Grid.Boxes` writes each slot exactly once: slot `i` of
box `b` holds the cell at the unique position mapping to it. -/
lemma Boxes_apply (g : Grid) (b i : Fin 9) :
    Grid.Boxes g b i = g (boxCellPos b i).1 (boxCellPos b i).2 := by
  fin_cases b <;> fin_cases i <;> rfl

/-! ### Conflict-freedom is exactly per-group no-duplicates -/

lemma no_conf_iff_groups (g : Grid) :
    (∀ p q, ¬ Conf g p q) ↔
      ((∀ r, NoDupGroup (Grid.RowAt g r)) ∧ (∀ c, NoDupGroup (Grid.ColumnAt g c)) ∧
        (∀ b, NoDupGroup (Grid.Boxes g b))) := by
  constructor
  · intro hall
    refine ⟨?_, ?_, ?_⟩
    · intro r i j hij hi heq
      exact hall (r, i) (r, j)
        ⟨fun h => hij (Prod.ext_iff.mp h).2, hi, heq, Or.inl rfl⟩
    · intro c i j hij hi heq
      exact hall (i, c) (j, c)
        ⟨fun h => hij (Prod.ext_iff.mp h).1, hi, heq, Or.inr (Or.inl rfl)⟩
    · intro b i j hij hi heq
      rw [Boxes_apply] at hi heq
      rw [Boxes_apply g b j] at heq
      refine hall (boxCellPos b i) (boxCellPos b j) ⟨?_, hi, heq, ?_⟩
      · intro h
        have := congrArg (fun p => posIndex p.1 p.2) h
        simp only [boxCellPos_posIndex] at this
        exact hij this
      · exact Or.inr (Or.inr (by rw [boxCellPos_boxIndex, boxCellPos_boxIndex]))
  · rintro ⟨hrow, hcol, hbox⟩ ⟨p1, p2⟩ ⟨q1, q2⟩ ⟨hne, hp0, hval, hgrp⟩
    simp only at hp0 hval
    rcases hgrp with h | h | h
    · simp only at h
      have h2 : p2 ≠ q2 := by
        intro h2
        exact hne (by rw [h, h2])
      have := hrow p1 p2 q2 h2 hp0
      rw [Grid.RowAt, Grid.RowAt] at this
      exact this (by rw [hval, h])
    · simp only at h
      have h1 : p1 ≠ q1 := by
        intro h1
        exact hne (by rw [h, h1])
      have := hcol p2 p1 q1 h1 hp0
      rw [Grid.ColumnAt, Grid.ColumnAt] at this
      exact this (by rw [hval, h])
    · simp only at h
      have hij : posIndex p1 p2 ≠ posIndex q1 q2 := by
        intro hij
        apply hne
        have hp := boxCellPos_eta p1 p2
        have hq := boxCellPos_eta q1 q2
        rw [← hp, ← hq, h, hij]
      have hiv : Grid.Boxes g (boxIndex p1 p2) (posIndex p1 p2) = g p1 p2 := by
        rw [Boxes_apply, boxCellPos_eta]
      have hjv : Grid.Boxes g (boxIndex p1 p2) (posIndex q1 q2) = g q1 q2 := by
        rw [Boxes_apply, h, boxCellPos_eta]
      have := hbox (boxIndex p1 p2) (posIndex p1 p2) (posIndex q1 q2) hij
        (by rw [hiv]; exact hp0)
      rw [hiv, hjv] at this
      exact this hval

/-- C3: `Grid.Valid` returns true iff every row, every column, and every
3x3 box contains no repeated non-zero value; empty cells never conflict. -/
theorem Valid_iff_no_repeats (g : Grid) :
    Grid.Valid g = true ↔
      ((∀ r, NoDupGroup (Grid.RowAt g r)) ∧ (∀ c, NoDupGroup (Grid.ColumnAt g c)) ∧
        (∀ b, NoDupGroup (Grid.Boxes g b))) :=
  (valid_iff_no_conf g).trans (no_conf_iff_groups g)

/-! ### Correctness of the per-group check and equivalence of the two
`Grid.Valid` implementations -/

lemma cellGroupValidAux_iff (l : List Nat) :
    ∀ (done : List Nat) (seen : Nat → Bool),
      (∀ v, v ≠ 0 → (seen v = true ↔ v ∈ done)) →
      (cellGroupValidAux l seen = true ↔
        (l.Pairwise (fun a b => a ≠ 0 → a ≠ b) ∧ ∀ a ∈ l, a ≠ 0 → a ∉ done)) := by
  induction l with
  | nil => intro done seen _; simp [cellGroupValidAux]
  | cons cell rest ih =>
    intro done seen hs
    by_cases h0 : cell = 0
    · subst h0
      rw [cellGroupValidAux, if_pos rfl, ih done seen hs]
      simp only [List.pairwise_cons, List.mem_cons]
      constructor
      · rintro ⟨hpw, hd⟩
        refine ⟨⟨fun a _ h => absurd rfl h, hpw⟩, ?_⟩
        rintro a (rfl | ha)
        · exact fun h => absurd rfl h
        · exact hd a ha
      · rintro ⟨⟨_, hpw⟩, hd⟩
        exact ⟨hpw, fun a ha => hd a (Or.inr ha)⟩
    · rw [cellGroupValidAux, if_neg h0]
      by_cases hseen : seen cell = true
      · rw [if_pos hseen]
        have hcd : cell ∈ done := (hs cell h0).mp hseen
        simp only [Bool.false_eq_true, false_iff]
        rintro ⟨_, hd⟩
        exact hd cell (List.mem_cons_self _ _) h0 hcd
      · rw [if_neg hseen]
        have hs' : ∀ v, v ≠ 0 →
            ((fun v => if v = cell then true else seen v) v = true ↔ v ∈ cell :: done) := by
          intro v hv
          simp only [List.mem_cons]
          by_cases hvc : v = cell
          · simp [hvc]
          · rw [if_neg hvc, hs v hv]
            simp [hvc]
        rw [ih (cell :: done) _ hs']
        have hnotdone : cell ∉ done := fun hmem => hseen ((hs cell h0).mpr hmem)
        simp only [List.pairwise_cons, List.mem_cons]
        constructor
        · rintro ⟨hpw, hd⟩
          refine ⟨⟨?_, hpw⟩, ?_⟩
          · intro a ha _ heq
            exact hd a ha (heq ▸ h0) (Or.inl heq.symm)
          · rintro a (rfl | ha) h0a
            · exact hnotdone
            · exact fun hmem => hd a ha h0a (Or.inr hmem)
        · rintro ⟨⟨hhead, hpw⟩, hd⟩
          refine ⟨hpw, ?_⟩
          intro a ha h0a
          simp only [List.mem_cons, not_or]
          refine ⟨?_, hd a (Or.inr ha) h0a⟩
          intro hac
          exact hhead a ha h0 hac.symm

lemma noDupGroup_of_lt (c : CellGroup)
    (h : ∀ i j : Fin 9, i < j → c i ≠ 0 → c i ≠ c j) : NoDupGroup c := by
  intro i j hij h0 heq
  rcases lt_or_gt_of_ne hij with hlt | hgt
  · exact h i j hlt h0 heq
  · by_cases hj0 : c j = 0
    · exact h0 (heq.trans hj0)
    · exact h j i hgt hj0 heq.symm

lemma cellGroupValid_iff (c : CellGroup) :
    CellGroup.Valid c = true ↔ NoDupGroup c := by
  rw [CellGroup.Valid, cellGroupValidAux_iff _ [] _ (by simp)]
  simp only [List.not_mem_nil, not_false_iff, implies_true, and_true]
  rw [List.pairwise_map, List.pairwise_iff_get]
  constructor
  · intro hpw
    apply noDupGroup_of_lt
    intro i j hlt
    have hi : i.1 < (List.finRange 9).length := by simp [i.2]
    have hj : j.1 < (List.finRange 9).length := by simp [j.2]
    have := hpw ⟨i.1, hi⟩ ⟨j.1, hj⟩ (Fin.mk_lt_mk.mpr hlt)
    rw [List.get_finRange, List.get_finRange] at this
    simpa using this
  · intro hnd i j hij h0
    refine hnd _ _ ?_ h0
    rw [List.get_finRange, List.get_finRange]
    intro h
    have hv : i.1 = j.1 := congrArg Fin.val h
    exact absurd hv (Nat.ne_of_lt hij)

/-- C4: the group-based `Grid.Valid` (check all 9 rows, 9 columns, and 9
boxes via `CellGroup.Valid`) and the single-pass seen-table `Grid.Valid`
return the same boolean on every grid. -/
theorem ValidGroups_eq_Valid (g : Grid) : Grid.ValidGroups g = Grid.Valid g := by
  have h1 : Grid.ValidGroups g = true ↔
      ((∀ r, NoDupGroup (Grid.RowAt g r)) ∧ (∀ c, NoDupGroup (Grid.ColumnAt g c)) ∧
        (∀ b, NoDupGroup (Grid.Boxes g b))) := by
    rw [Grid.ValidGroups]
    simp only [Bool.and_eq_true, List.all_eq_true]
    constructor
    · rintro ⟨⟨hr, hc⟩, hb⟩
      exact ⟨fun r => (cellGroupValid_iff _).mp (hr r (List.mem_finRange r)),
        fun c => (cellGroupValid_iff _).mp (hc c (List.mem_finRange c)),
        fun b => (cellGroupValid_iff _).mp (hb b (List.mem_finRange b))⟩
    · rintro ⟨hr, hc, hb⟩
      exact ⟨⟨fun r _ => (cellGroupValid_iff _).mpr (hr r),
        fun c _ => (cellGroupValid_iff _).mpr (hc c)⟩,
        fun b _ => (cellGroupValid_iff _).mpr (hb b)⟩
  have h2 := (valid_iff_no_conf g).trans (no_conf_iff_groups g)
  have h3 : Grid.ValidGroups g = true ↔ Grid.Valid g = true := h1.trans h2.symm
  cases hvg : Grid.ValidGroups g
  · cases hv : Grid.Valid g
    · rfl
    · exact absurd (hvg ▸ h3.mpr hv) (by simp)
  · exact (h3.mp hvg).symm

/-! ### Counting empty cells -/

lemma allPos_length : allPos.length = 81 := by decide

lemma countEmpty_le (g : Grid) : countEmpty g ≤ 81 := by
  have h : countEmpty g ≤ allPos.length :=
    List.countP_le_length (fun p : Fin 9 × Fin 9 => g p.1 p.2 == 0)
  rw [allPos_length] at h
  exact h

lemma countP_update {α : Type} (f fp : α → Bool) :
    ∀ (l : List α) (a : α), l.Nodup → a ∈ l → f a = true → fp a = false →
      (∀ x ∈ l, x ≠ a → fp x = f x) → l.countP fp + 1 = l.countP f := by
  intro l
  induction l with
  | nil => intro a _ h; exact absurd h (List.not_mem_nil a)
  | cons x xs ih =>
    intro a hnd hmem hfa hfa' hoff
    rw [List.countP_cons, List.countP_cons]
    rcases List.mem_cons.mp hmem with rfl | hmem'
    · have hxs : xs.countP fp = xs.countP f := by
        apply List.countP_congr
        intro y hy
        rw [hoff y (List.mem_cons_of_mem _ hy)
          (fun he => (List.nodup_cons.mp hnd).1 (he ▸ hy))]
      rw [hxs, hfa, hfa']
      simp
    · have hx : fp x = f x := by
        apply hoff x (List.mem_cons_self _ _)
        intro he
        exact (List.nodup_cons.mp hnd).1 (he ▸ hmem')
      have hrec := ih a (List.nodup_cons.mp hnd).2 hmem' hfa hfa'
        (fun y hy hne => hoff y (List.mem_cons_of_mem _ hy) hne)
      rw [hx]
      omega

lemma apply_self (g : Grid) (p : Fin 9 × Fin 9) (i : Nat) :
    Grid.Apply g ⟨p.1, p.2, i⟩ p.1 p.2 = i := by
  rw [Grid.Apply]
  simp

lemma apply_other (g : Grid) (p q : Fin 9 × Fin 9) (i : Nat) (hne : q ≠ p) :
    Grid.Apply g ⟨p.1, p.2, i⟩ q.1 q.2 = g q.1 q.2 := by
  rw [Grid.Apply, if_neg]
  rintro ⟨h1, h2⟩
  exact hne (Prod.ext h1 h2)

lemma countEmpty_apply (g : Grid) (p : Fin 9 × Fin 9) (i : Nat)
    (hp : g p.1 p.2 = 0) (hi : i ≠ 0) :
    countEmpty (Grid.Apply g ⟨p.1, p.2, i⟩) + 1 = countEmpty g := by
  apply countP_update _ _ allPos p allPos_nodup (mem_allPos p)
  · simp [hp]
  · rw [apply_self]
    simpa using hi
  · intro q _ hne
    rw [apply_other g p q i hne]

/-! ### Validity is monotone under erasing cells -/

lemma Valid_mono (g s : Grid)
    (hsub : ∀ p : Fin 9 × Fin 9, g p.1 p.2 ≠ 0 → s p.1 p.2 = g p.1 p.2)
    (hs : Grid.Valid s = true) : Grid.Valid g = true := by
  rw [valid_iff_no_conf] at hs ⊢
  rintro p q ⟨hne, hp0, hval, hgrp⟩
  have hq0 : g q.1 q.2 ≠ 0 := fun h => hp0 (hval.trans h)
  refine hs p q ⟨hne, ?_, ?_, hgrp⟩
  · rw [hsub p hp0]; exact hp0
  · rw [hsub p hp0, hsub q hq0]; exact hval

/-! ### The digit loop of `Backtrack` -/

lemma backtrackDigits_isSome (recur : Grid → Option (Grid × Bool)) (g : Grid)
    (r c : Fin 9) (ds : List Nat)
    (h : ∀ i ∈ ds, (recur (Grid.Apply g ⟨r, c, i⟩)).isSome = true) :
    (backtrackDigits recur g r c ds).isSome = true := by
  induction ds with
  | nil => rfl
  | cons i rest ih =>
    rw [backtrackDigits]
    cases hres : recur (Grid.Apply g ⟨r, c, i⟩) with
    | none =>
      have := h i (List.mem_cons_self _ _)
      rw [hres] at this
      simp at this
    | some v =>
      obtain ⟨s, b⟩ := v
      cases b
      · exact ih (fun j hj => h j (List.mem_cons_of_mem _ hj))
      · rfl

lemma backtrackDigits_some_true (recur : Grid → Option (Grid × Bool)) (g : Grid)
    (r c : Fin 9) (ds : List Nat) (s : Grid)
    (h : backtrackDigits recur g r c ds = some (s, true)) :
    ∃ i ∈ ds, recur (Grid.Apply g ⟨r, c, i⟩) = some (s, true) := by
  induction ds with
  | nil => simp [backtrackDigits] at h
  | cons i rest ih =>
    rw [backtrackDigits] at h
    cases hres : recur (Grid.Apply g ⟨r, c, i⟩) with
    | none => rw [hres] at h; simp at h
    | some v =>
      obtain ⟨t, b⟩ := v
      rw [hres] at h
      cases b
      · obtain ⟨j, hj, hrec⟩ := ih h
        exact ⟨j, List.mem_cons_of_mem _ hj, hrec⟩
      · simp only [Option.some.injEq, Prod.mk.injEq] at h
        exact ⟨i, List.mem_cons_self _ _, by rw [hres, h.1]⟩

lemma backtrackDigits_some_false (recur : Grid → Option (Grid × Bool)) (g : Grid)
    (r c : Fin 9) (ds : List Nat) (s : Grid)
    (h : backtrackDigits recur g r c ds = some (s, false)) : s = g := by
  induction ds with
  | nil =>
    rw [backtrackDigits] at h
    simp only [Option.some.injEq, Prod.mk.injEq] at h
    exact h.1.symm
  | cons i rest ih =>
    rw [backtrackDigits] at h
    cases hres : recur (Grid.Apply g ⟨r, c, i⟩) with
    | none => rw [hres] at h; simp at h
    | some v =>
      obtain ⟨t, b⟩ := v
      rw [hres] at h
      cases b
      · exact ih h
      · simp at h

lemma backtrackDigits_complete (recur : Grid → Option (Grid × Bool)) (g : Grid)
    (r c : Fin 9) (ds : List Nat) (d : Nat) (t : Grid)
    (hmem : d ∈ ds) (hrec : recur (Grid.Apply g ⟨r, c, d⟩) = some (t, true))
    (hall : ∀ i ∈ ds, (recur (Grid.Apply g ⟨r, c, i⟩)).isSome = true) :
    ∃ u, backtrackDigits recur g r c ds = some (u, true) := by
  induction ds with
  | nil => exact absurd hmem (List.not_mem_nil d)
  | cons i rest ih =>
    rw [backtrackDigits]
    cases hres : recur (Grid.Apply g ⟨r, c, i⟩) with
    | none =>
      have := hall i (List.mem_cons_self _ _)
      rw [hres] at this
      simp at this
    | some v =>
      obtain ⟨u, b⟩ := v
      cases b
      · rcases List.mem_cons.mp hmem with rfl | hmem'
        · rw [hrec] at hres
          simp at hres
        · exact ih hmem' (fun j hj => hall j (List.mem_cons_of_mem _ hj))
      · exact ⟨u, rfl⟩

/-! ### Termination, soundness and completeness of `Backtrack` -/

lemma digits_bounds : ∀ i ∈ digits, 1 ≤ i ∧ i ≤ 9 := by decide

lemma mem_digits_of_bounds (d : Nat) (h1 : 1 ≤ d) (h9 : d ≤ 9) : d ∈ digits := by
  simp only [digits, List.mem_cons, List.not_mem_nil, or_false]
  omega

lemma backtrackAux_isSome :
    ∀ (fuel : Nat) (g : Grid), countEmpty g < fuel →
      (backtrackAux fuel g).isSome = true := by
  intro fuel
  induction fuel with
  | zero => intro g h; omega
  | succ fuel ih =>
    intro g _
    rw [backtrackAux]
    by_cases hv : Grid.Valid g = false
    · rw [if_pos hv]; rfl
    · rw [if_neg hv]
      cases hfind : allPos.find? (fun p => g p.1 p.2 == 0) with
      | none => rfl
      | some p =>
        apply backtrackDigits_isSome
        intro i hi
        apply ih
        have hp0 : g p.1 p.2 = 0 := by simpa using List.find?_some hfind
        have hi0 : i ≠ 0 := by
          have := (digits_bounds i hi).1
          omega
        have := countEmpty_apply g p i hp0 hi0
        have hle := countEmpty_le g
        omega

lemma backtrackAux_some_false :
    ∀ (fuel : Nat) (g s : Grid), backtrackAux fuel g = some (s, false) → s = g := by
  intro fuel
  cases fuel with
  | zero => intro g s h; simp [backtrackAux] at h
  | succ fuel =>
    intro g s h
    rw [backtrackAux] at h
    by_cases hv : Grid.Valid g = false
    · rw [if_pos hv] at h
      simp only [Option.some.injEq, Prod.mk.injEq] at h
      exact h.1.symm
    · rw [if_neg hv] at h
      cases hfind : allPos.find? (fun p => g p.1 p.2 == 0) with
      | none => rw [hfind] at h; simp at h
      | some p =>
        rw [hfind] at h
        exact backtrackDigits_some_false _ _ _ _ _ _ h

lemma backtrackAux_sound :
    ∀ (fuel : Nat) (g s : Grid), Grid.WellFormed g →
      backtrackAux fuel g = some (s, true) → IsCompletion g s := by
  intro fuel
  induction fuel with
  | zero => intro g s _ h; simp [backtrackAux] at h
  | succ fuel ih =>
    intro g s hwf h
    rw [backtrackAux] at h
    by_cases hv : Grid.Valid g = false
    · rw [if_pos hv] at h
      simp at h
    · rw [if_neg hv] at h
      rw [Bool.not_eq_false] at hv
      cases hfind : allPos.find? (fun p => g p.1 p.2 == 0) with
      | none =>
        rw [hfind] at h
        simp only [Option.some.injEq, Prod.mk.injEq, and_true] at h
        subst h
        refine ⟨hwf, hv, ?_, fun p _ => rfl⟩
        intro p
        have := List.find?_eq_none.mp hfind p (mem_allPos p)
        simpa using this
      | some p =>
        rw [hfind] at h
        obtain ⟨i, hmem, hrec⟩ := backtrackDigits_some_true _ _ _ _ _ _ h
        have hp0 : g p.1 p.2 = 0 := by simpa using List.find?_some hfind
        have hi9 : i ≤ 9 := (digits_bounds i hmem).2
        have hwf' : Grid.WellFormed (Grid.Apply g ⟨p.1, p.2, i⟩) := by
          intro r c
          rw [Grid.Apply]
          split
          · exact hi9
          · exact hwf r c
        obtain ⟨hwfs, hvs, hfull, hagree⟩ := ih _ s hwf' hrec
        refine ⟨hwfs, hvs, hfull, ?_⟩
        intro q hq
        have hqp : q ≠ p := by
          intro he
          rw [he] at hq
          exact hq hp0
        have happ : Grid.Apply g ⟨p.1, p.2, i⟩ q.1 q.2 = g q.1 q.2 :=
          apply_other g p q i hqp
        rw [hagree q (by rw [happ]; exact hq), happ]

lemma backtrackAux_complete :
    ∀ (fuel : Nat) (g : Grid), (∃ s, IsCompletion g s) → countEmpty g < fuel →
      ∃ t, backtrackAux fuel g = some (t, true) := by
  intro fuel
  induction fuel with
  | zero => intro g _ h; omega
  | succ fuel ih =>
    intro g hex hfuel
    obtain ⟨s, hwfs, hvs, hfull, hagree⟩ := hex
    have hgv : Grid.Valid g = true := Valid_mono g s hagree hvs
    rw [backtrackAux, if_neg (by rw [hgv]; simp)]
    cases hfind : allPos.find? (fun p => g p.1 p.2 == 0) with
    | none => exact ⟨g, rfl⟩
    | some p =>
      have hp0 : g p.1 p.2 = 0 := by simpa using List.find?_some hfind
      have hd0 : s p.1 p.2 ≠ 0 := hfull p
      have hdmem : s p.1 p.2 ∈ digits :=
        mem_digits_of_bounds _ (Nat.one_le_iff_ne_zero.mpr hd0) (hwfs p.1 p.2)
      have hcomp' : IsCompletion (Grid.Apply g ⟨p.1, p.2, s p.1 p.2⟩) s := by
        refine ⟨hwfs, hvs, hfull, ?_⟩
        intro q hq
        rcases eq_or_ne q p with rfl | hqp
        · rw [apply_self]
        · rw [apply_other _ _ _ _ hqp] at hq ⊢
          exact hagree q hq
      have hce := countEmpty_apply g p (s p.1 p.2) hp0 hd0
      obtain ⟨t, ht⟩ := ih (Grid.Apply g ⟨p.1, p.2, s p.1 p.2⟩) ⟨s, hcomp'⟩ (by omega)
      have hall : ∀ i ∈ digits,
          ((backtrackAux fuel) (Grid.Apply g ⟨p.1, p.2, i⟩)).isSome = true := by
        intro i hi
        apply backtrackAux_isSome
        have hi0 : i ≠ 0 := by
          have := (digits_bounds i hi).1
          omega
        have := countEmpty_apply g p i hp0 hi0
        omega
      exact backtrackDigits_complete _ _ _ _ _ _ t hdmem ht hall

/-- C9: `Backtrack` terminates on every input grid: any fuel exceeding the
number of empty cells suffices (each recursive call strictly decreases the
count of empty cells), and that count is at most 81, so the recursion
depth along any path is bounded by 81 and the function is total. -/
theorem Backtrack_terminates (g : Grid) (fuel : Nat) (h : countEmpty g < fuel) :
    (backtrackAux fuel g).isSome = true ∧ countEmpty g ≤ 81 :=
  ⟨backtrackAux_isSome fuel g h, countEmpty_le g⟩

/-- Witness for C9 at the all-empty grid with fuel 82. -/
theorem Backtrack_terminates_witness :
    countEmpty emptyGrid < 82 ∧
      ((backtrackAux 82 emptyGrid).isSome = true ∧ countEmpty emptyGrid ≤ 81) :=
  ⟨by decide, Backtrack_terminates emptyGrid 82 (by decide)⟩

/-- C2: on a well-formed grid, `Backtrack` returns `(s, true)` with `s` a
completion of `g` (valid, no empty cell, agreeing with `g` on filled
cells) whenever a completion exists, and returns `(g, false)` with the
grid unchanged otherwise. -/
theorem Backtrack_correct (g : Grid) (hwf : Grid.WellFormed g) :
    ((∃ s, IsCompletion g s) →
      (Backtrack g).2 = true ∧ IsCompletion g (Backtrack g).1) ∧
    ((¬ ∃ s, IsCompletion g s) → Backtrack g = (g, false)) := by
  have hfuel : countEmpty g < 82 := by
    have := countEmpty_le g
    omega
  constructor
  · intro hex
    obtain ⟨t, ht⟩ := backtrackAux_complete 82 g hex hfuel
    rw [Backtrack, ht]
    exact ⟨rfl, backtrackAux_sound 82 g t hwf ht⟩
  · intro hnex
    have hsome := backtrackAux_isSome 82 g hfuel
    rw [Backtrack]
    cases hres : backtrackAux 82 g with
    | none => rw [hres] at hsome; simp at hsome
    | some v =>
      obtain ⟨s, b⟩ := v
      cases b
      · have hsg := backtrackAux_some_false 82 g s hres
        rw [hsg]
        rfl
      · exact absurd ⟨s, backtrackAux_sound 82 g s hwf hres⟩ hnex

set_option maxRecDepth 40000 in
/-- Witness for C2 at the repository's `filled` test grid, which is its
own completion. -/
theorem Backtrack_correct_witness :
    (Backtrack filledGrid).2 = true ∧
      IsCompletion filledGrid (Backtrack filledGrid).1 :=
  (Backtrack_correct filledGrid (by decide)).1 ⟨filledGrid, by decide⟩

lemma cellGroupValidCheckedAux_isSome :
    ∀ (l : List Nat) (seen : Fin 10 → Bool), (∀ v ∈ l, v ≤ 9) →
      (cellGroupValidCheckedAux l seen).isSome = true := by
  intro l
  induction l with
  | nil => intro seen _; rfl
  | cons cell rest ih =>
    intro seen hb
    rw [cellGroupValidCheckedAux]
    by_cases h0 : cell = 0
    · rw [if_pos h0]
      exact ih _ (fun v hv => hb v (List.mem_cons_of_mem _ hv))
    · rw [if_neg h0]
      have h10 : cell < 10 :=
        Nat.lt_succ_of_le (hb cell (List.mem_cons_self _ _))
      rw [dif_pos h10]
      by_cases hs : seen ⟨cell, h10⟩ = true
      · rw [if_pos hs]; rfl
      · rw [if_neg hs]
        exact ih _ (fun v hv => hb v (List.mem_cons_of_mem _ hv))

lemma validSeenCheckedAux_isSome (g : Grid) :
    ∀ (ps : List (Fin 9 × Fin 9)) (sr sc sb : TableChecked),
      (∀ p ∈ ps, g p.1 p.2 ≤ 9) →
      (validSeenCheckedAux g ps sr sc sb).isSome = true := by
  intro ps
  induction ps with
  | nil => intro sr sc sb _; rfl
  | cons p rest ih =>
    intro sr sc sb hb
    rw [validSeenCheckedAux]
    by_cases h0 : g p.1 p.2 = 0
    · rw [if_pos h0]
      exact ih _ _ _ (fun q hq => hb q (List.mem_cons_of_mem _ hq))
    · rw [if_neg h0]
      have h10 : g p.1 p.2 < 10 :=
        Nat.lt_succ_of_le (hb p (List.mem_cons_self _ _))
      rw [dif_pos h10]
      by_cases h1 : sr p.1 ⟨g p.1 p.2, h10⟩ = true
      · rw [if_pos h1]; rfl
      · rw [if_neg h1]
        by_cases h2 : sc p.2 ⟨g p.1 p.2, h10⟩ = true
        · rw [if_pos h2]; rfl
        · rw [if_neg h2]
          by_cases h3 : sb (boxIndex p.1 p.2) ⟨g p.1 p.2, h10⟩ = true
          · rw [if_pos h3]; rfl
          · rw [if_neg h3]
            exact ih _ _ _ (fun q hq => hb q (List.mem_cons_of_mem _ hq))

/-- C10: on a grid whose cells all lie in 0–9, both validity checks — the
seen-table `Grid.Valid` and `CellGroup.Valid` on each derived row, column
and box group — run without any out-of-bounds table access (the `none`
error branch of the checked embedding is unreachable). -/
theorem validChecked_no_oob (g : Grid) (h : Grid.WellFormed g) :
    (Grid.ValidChecked g).isSome = true ∧
      ∀ i : Fin 9,
        (CellGroup.ValidChecked (Grid.RowAt g i)).isSome = true ∧
        (CellGroup.ValidChecked (Grid.ColumnAt g i)).isSome = true ∧
        (CellGroup.ValidChecked (Grid.Boxes g i)).isSome = true := by
  constructor
  · exact validSeenCheckedAux_isSome g allPos _ _ _ (fun p _ => h p.1 p.2)
  · intro i
    refine ⟨?_, ?_, ?_⟩
    · apply cellGroupValidCheckedAux_isSome
      intro v hv
      obtain ⟨j, _, rfl⟩ := List.mem_map.mp hv
      exact h i j
    · apply cellGroupValidCheckedAux_isSome
      intro v hv
      obtain ⟨j, _, rfl⟩ := List.mem_map.mp hv
      exact h j i
    · apply cellGroupValidCheckedAux_isSome
      intro v hv
      obtain ⟨j, _, rfl⟩ := List.mem_map.mp hv
      rw [Boxes_apply]
      exact h _ _

/-- Witness for C10 at the all-empty grid. -/
theorem validChecked_no_oob_witness :
    Grid.WellFormed emptyGrid ∧
      ((Grid.ValidChecked emptyGrid).isSome = true ∧
        ∀ i : Fin 9,
          (CellGroup.ValidChecked (Grid.RowAt emptyGrid i)).isSome = true ∧
          (CellGroup.ValidChecked (Grid.ColumnAt emptyGrid i)).isSome = true ∧
          (CellGroup.ValidChecked (Grid.Boxes emptyGrid i)).isSome = true) :=
  ⟨by decide, validChecked_no_oob emptyGrid (by decide)⟩

/-! ### Hint -/

lemma insertRanked_length (x : Move × Nat) :
    ∀ l : List (Move × Nat), (insertRanked x l).length = l.length + 1 := by
  intro l
  induction l with
  | nil => rfl
  | cons y ys ih =>
    rw [insertRanked]
    by_cases h : x.2 ≤ y.2
    · rw [if_pos h]
      rfl
    · rw [if_neg h]
      simp only [List.length_cons, ih]

lemma sortRanked_length :
    ∀ l : List (Move × Nat), (sortRanked l).length = l.length := by
  intro l
  induction l with
  | nil => rfl
  | cons x xs ih =>
    rw [sortRanked, insertRanked_length, ih]
    rfl

lemma sort_length (p : List Move) (grid : Grid) :
    (Possibilities.Sort p grid).length = p.length := by
  rw [Possibilities.Sort, List.length_map, sortRanked_length, List.length_map]

lemma filterMap_eq_single {α β : Type} (f : α → Option β) :
    ∀ (l : List α) (a : α) (b : β), l.Nodup → a ∈ l → f a = some b →
      (∀ x ∈ l, x ≠ a → f x = none) → l.filterMap f = [b] := by
  intro l
  induction l with
  | nil => intro a b _ h; exact absurd h (List.not_mem_nil a)
  | cons x xs ih =>
    intro a b hnd hmem hfa hoff
    rcases List.mem_cons.mp hmem with rfl | hmem'
    · have hxs : xs.filterMap f = [] := by
        rw [List.filterMap_eq_nil_iff]
        intro y hy
        exact hoff y (List.mem_cons_of_mem _ hy)
          (fun he => (List.nodup_cons.mp hnd).1 (he ▸ hy))
      rw [List.filterMap_cons_some hfa, hxs]
    · have hx : f x = none := hoff x (List.mem_cons_self _ _)
        (fun he => (List.nodup_cons.mp hnd).1 (he ▸ hmem'))
      rw [List.filterMap_cons_none hx]
      exact ih a b (List.nodup_cons.mp hnd).2 hmem' hfa
        (fun y hy hne => hoff y (List.mem_cons_of_mem _ hy) hne)

/-- C7: when `later` differs from `early` in exactly one cell, that cell
empty in `early` and filled in `later`, `Hint` returns exactly that
cell's (row, column, value), regardless of the ranking. -/
theorem Hint_single_diff (early later : Grid) (r c : Fin 9)
    (h0 : early r c = 0) (h1 : later r c ≠ 0)
    (hrest : ∀ p : Fin 9 × Fin 9, p ≠ (r, c) → early p.1 p.2 = later p.1 p.2) :
    Hint early later = some ⟨r, c, later r c⟩ := by
  have hmoves : allPos.filterMap (fun p =>
      if early p.1 p.2 = 0 ∧ later p.1 p.2 ≠ 0
      then some (⟨p.1, p.2, later p.1 p.2⟩ : Move) else none)
      = [⟨r, c, later r c⟩] := by
    apply filterMap_eq_single _ allPos (r, c) _ allPos_nodup (mem_allPos _)
    · rw [if_pos ⟨h0, h1⟩]
    · intro x hx hne
      rw [if_neg]
      rintro ⟨hx0, hx1⟩
      rw [hrest x hne] at hx0
      exact hx1 hx0
  simp only [Hint, hmoves, List.isEmpty, Possibilities.Sort, List.map,
    sortRanked, insertRanked, List.head?, Bool.false_eq_true, if_false]

/-- Witness for C7: the empty grid against a grid with a single 5 at
(0, 0). -/
theorem Hint_single_diff_witness :
    (emptyGrid 0 0 = 0 ∧ hintLater 0 0 ≠ 0 ∧
      (∀ p : Fin 9 × Fin 9, p ≠ ((0 : Fin 9), (0 : Fin 9)) →
        emptyGrid p.1 p.2 = hintLater p.1 p.2)) ∧
      Hint emptyGrid hintLater = some ⟨0, 0, hintLater 0 0⟩ :=
  ⟨⟨by decide, by decide, by decide⟩,
    Hint_single_diff emptyGrid hintLater 0 0 (by decide) (by decide) (by decide)⟩

/-- C8: `Hint` fails (the Go code panics, modelled as `none`) exactly when
no cell is empty in `early` and filled in `later`; in every other case it
returns a move. -/
theorem Hint_none_iff (early later : Grid) :
    Hint early later = none ↔
      ∀ r c : Fin 9, ¬(early r c = 0 ∧ later r c ≠ 0) := by
  rw [Hint]
  by_cases hemp : (allPos.filterMap (fun p =>
      if early p.1 p.2 = 0 ∧ later p.1 p.2 ≠ 0
      then some (⟨p.1, p.2, later p.1 p.2⟩ : Move) else none)).isEmpty = true
  · rw [if_pos hemp]
    simp only [true_iff]
    rw [List.isEmpty_iff, List.filterMap_eq_nil_iff] at hemp
    intro r c hrc
    have := hemp (r, c) (mem_allPos (r, c))
    rw [if_pos hrc] at this
    simp at this
  · rw [if_neg hemp]
    have hlen : (Possibilities.Sort (allPos.filterMap (fun p =>
        if early p.1 p.2 = 0 ∧ later p.1 p.2 ≠ 0
        then some (⟨p.1, p.2, later p.1 p.2⟩ : Move) else none)) early) ≠ [] := by
      intro h
      apply hemp
      rw [List.isEmpty_iff]
      have := congrArg List.length h
      rw [sort_length] at this
      exact List.length_eq_zero.mp this
    constructor
    · intro h
      exact absurd (List.head?_eq_none_iff.mp h) hlen
    · intro hall
      exfalso
      rw [Bool.not_eq_true, List.isEmpty_eq_false] at hemp
      obtain ⟨mv, hmv⟩ := List.exists_mem_of_ne_nil _ hemp
      obtain ⟨p, _, hp⟩ := List.mem_filterMap.mp hmv
      by_cases hc : early p.1 p.2 = 0 ∧ later p.1 p.2 ≠ 0
      · exact hall p.1 p.2 hc
      · rw [if_neg hc] at hp
        simp at hp

/-- C1 exhibit: `Possibilities` keeps the move (0, 1, 1) on `possGrid`
although placing it yields an invalid grid (a second 1 in row 0): the
source tests `g.Valid()` instead of the variant's validity, so every
digit for every empty cell of a valid grid is reported. -/
theorem Possibilities_keeps_invalid_move :
    (⟨0, 1, 1⟩ : Move) ∈ Grid.Possibilities possGrid ∧
      Grid.Valid (Grid.Apply possGrid ⟨0, 1, 1⟩) = false := by decide

/-- C6 exhibit: cell (0, 1) lies in box 0 at slot 3 and holds 2, and
`Grid.Boxes` reports it there, but `Grid.BoxAt 0 0` fills every slot of
the group with the cell at (0, 0): the box group it returns misses the 2. -/
theorem BoxAt_returns_copies :
    boxGrid 0 1 = 2 ∧ boxIndex 0 1 = boxIndex 0 0 ∧ posIndex 0 1 = 3 ∧
      Grid.Boxes boxGrid (boxIndex 0 0) 3 = 2 ∧
      Grid.BoxAt boxGrid 0 0 3 = 1 ∧
      (∀ i : Fin 9, Grid.BoxAt boxGrid 0 0 i = boxGrid 0 0) := by decide

/-- C5 exhibit: for the move (0, 0, 1) on `rankGrid` the applied grid is
invalid (two 1s in row 0), so the recomputed possibility list is empty
and no cell has exactly one possibility; the claimed sum is
2 (row) + 1 (column) + 1 (box) + 2 (value) = 6, but `Move.Rank` returns
14 because the buggy `Grid.BoxAt` makes the box count 9. -/
theorem Rank_counts_box_wrongly :
    Move.Rank ⟨0, 0, 1⟩ rankGrid = 14 ∧
      Grid.Possibilities (Grid.Apply rankGrid ⟨0, 0, 1⟩) = [] ∧
      CellGroup.Count (Grid.RowAt (Grid.Apply rankGrid ⟨0, 0, 1⟩) 0) = 2 ∧
      CellGroup.Count (Grid.ColumnAt (Grid.Apply rankGrid ⟨0, 0, 1⟩) 0) = 1 ∧
      CellGroup.Count
        (Grid.Boxes (Grid.Apply rankGrid ⟨0, 0, 1⟩) (boxIndex 0 0)) = 1 ∧
      Grid.NumCounts (Grid.Apply rankGrid ⟨0, 0, 1⟩) 1 = 2 ∧
      CellGroup.Count (Grid.BoxAt (Grid.Apply rankGrid ⟨0, 0, 1⟩) 0 0) = 9 := by
  decide

end SudokuSolver
